import Mathlib

/-!
# Verification of the Multi-Agents-Architectures graph orchestration core

This file gives a shallow embedding of the three topology modules of the
repository (`graph.py`, `network_graph.py`, `hierarchical_graph.py`) together
with the execution engine mandated by the specification, and proves the
behavioural claims about them.

Conventions:
* Python strings are modelled as `List Char`; the Python operations
  `str.strip`, `str.lower`, `str.upper`, substring membership (`in`) and
  `str.replace` are modelled by `stripL`, `toLowerL`, `toUpperL`, `containsL`
  and `replaceL` below.
* A LangChain message is modelled by `Message`: `author = none` models a
  message that carries no `name` attribute (a user turn), `author = some n`
  models a message tagged `name=n`.
* The external LLM calls made by the node functions are modelled as oracle
  parameters of type `EState → List Char` (free-form text answers), as the
  specification treats them: untrusted external capabilities.
* LangGraph's `END` sentinel is the distinguished id `endId`.
-/

namespace MultiAgents

/-! ## Python string operations -/

def toLowerL (l : List Char) : List Char := l.map Char.toLower

def toUpperL (l : List Char) : List Char := l.map Char.toUpper

/-- Python `s.strip()`: remove whitespace from both ends. -/
def stripL (l : List Char) : List Char :=
  ((l.dropWhile Char.isWhitespace).reverse.dropWhile Char.isWhitespace).reverse

/-- Python substring test `pat in s`. -/
def containsL (pat : List Char) : List Char → Bool
  | [] => pat.isEmpty
  | c :: cs => pat.isPrefixOf (c :: cs) || containsL pat cs

/-- Python `s.replace(pat, rep)`: replace every occurrence of `pat`,
scanning left to right without rescanning replaced text.  The `fuel`
argument only bounds the recursion; `replaceL` passes the length of the
string, which always suffices because each step consumes at least one
character of the input. -/
def replaceLAux (pat rep : List Char) : Nat → List Char → List Char
  | 0, l => l
  | _ + 1, [] => []
  | fuel + 1, c :: cs =>
    if pat.isPrefixOf (c :: cs) && !pat.isEmpty then
      rep ++ replaceLAux pat rep fuel ((c :: cs).drop pat.length)
    else
      c :: replaceLAux pat rep fuel cs

/-- Python `s.replace(pat, rep)`. -/
def replaceL (pat rep s : List Char) : List Char := replaceLAux pat rep s.length s

/-! ## Engine data model

Modelled from the spec: the execution engine of §4.3, the data model of §3
and the fallback policy of §4.4 are not part of the repository sources (the
sources delegate the loop to the external LangGraph library, `state.py` is
not in the repository snapshot, and the step budget is described by the
specification as a required hardening absent from the original design), so
they are embedded from the specification's words here.  Everything a node or
router does is embedded from the repository sources further below. -/

/-- Modelled from the spec: `Message` of §3 (`state.py` with the message
log definition is missing from the sources).  `author = none` models a
message without a `name` attribute. -/
structure Message where
  author : Option String
  content : List Char
  seqIndex : Nat
deriving DecidableEq, Repr

/-- Modelled from the spec: `State` of §3 — the append-only message log and
the routing-hint channel (`state["next"]`). -/
structure EState where
  messages : List Message
  next : Option String
deriving DecidableEq, Repr

/-- Modelled from the spec: `PartialResult` of §3, the value a node executor
returns: new messages as (author, content) pairs (the engine assigns the
sequence indices) and an optional routing hint. -/
structure PartialResult where
  newMessages : List (Option String × List Char)
  nextHint : Option String
deriving DecidableEq, Repr

/-- LangGraph's `END` sentinel (the distinguished id `"__end__"`). -/
def endId : String := "__end__"

/-- A routing target: a named node or the terminal sentinel. -/
inductive RTarget where
  | node (id : String)
  | term
deriving DecidableEq, Repr

/-- Interpret a routing-channel value: the `END` sentinel is terminal, any
other id names a node. -/
def strToRT (x : String) : RTarget :=
  if x = endId then RTarget.term else RTarget.node x

/-- Modelled from the spec: an edge of §3 — unconditional, or conditional
with a decision function, an allowed-target set, the configured keyword
fallback rules, and the configured static default target (§4.4). -/
inductive GEdge where
  | uncond (tgt : String)
  | cond (choose : EState → RTarget) (allowed : List RTarget)
      (rules : List (List (List Char) × String)) (dflt : RTarget)

/-- Modelled from the spec: the compiled `Graph` of §3. -/
structure Graph where
  nodeIds : List String
  nodes : String → EState → PartialResult
  edges : List (String × GEdge)
  entry : String

/-- Modelled from the spec: the keyword tier of the fallback policy of §4.4 —
a closed ordered list of (keyword-set, target) pairs, applied to the
originating message content, first matching rule wins. -/
def applyRules (rules : List (List (List Char) × String)) (msg : List Char) :
    Option String :=
  match rules with
  | [] => none
  | (kws, t) :: rest =>
    if kws.any (fun k => containsL k (toLowerL msg)) then some t
    else applyRules rest msg

/-- Content of the most recent message (the originating message of a routing
decision), empty when the log is empty. -/
def lastContent (s : EState) : List Char :=
  match s.messages.getLast? with
  | some m => m.content
  | none => []

/-- Modelled from the spec: the two-tier fallback of §4.4 — keyword rules
first, then the static default. -/
def fallbackTarget (rules : List (List (List Char) × String)) (dflt : RTarget)
    (s : EState) : RTarget :=
  match applyRules rules (lastContent s) with
  | some t => RTarget.node t
  | none => dflt

/-- Modelled from the spec: step 5 of the loop of §4.3 — resolve the next
node from the edge table entry of the current node; an out-of-set decision
triggers the fallback policy and never fails the run. -/
def resolveEdge (g : Graph) (id : String) (s : EState) : RTarget :=
  match g.edges.lookup id with
  | none => RTarget.term
  | some (GEdge.uncond t) => RTarget.node t
  | some (GEdge.cond choose allowed rules dflt) =>
    let c := choose s
    if c ∈ allowed then c else fallbackTarget rules dflt s

/-- Largest sequence index present in the log (0 when empty). -/
def prevMaxIndex (msgs : List Message) : Nat :=
  msgs.foldr (fun m acc => max m.seqIndex acc) 0

/-- Assign consecutive sequence indices `n, n+1, …` to a batch of new
(author, content) pairs, preserving their order. -/
def assignIndices (n : Nat) : List (Option String × List Char) → List Message
  | [] => []
  | (a, c) :: rest => ⟨a, c, n⟩ :: assignIndices (n + 1) rest

/-- Modelled from the spec: step 4 of the loop of §4.3 — append the new
messages in order with sequence indices continuing at previous max + 1, and
overwrite `next_hint` only when the node supplied one. -/
def applyResult (s : EState) (pr : PartialResult) : EState :=
  { messages := s.messages ++ assignIndices (prevMaxIndex s.messages + 1) pr.newMessages
    next := match pr.nextHint with
            | some h => some h
            | none => s.next }

/-- Outcome of a run: normal termination at the terminal sentinel, or the
step budget was exhausted.  Both carry the state reached and the ordered
trace of node ids that were invoked. -/
inductive RunOutcome where
  | ok (st : EState) (trace : List String)
  | stepBudgetExceeded (st : EState) (trace : List String)
deriving DecidableEq, Repr

def RunOutcome.state : RunOutcome → EState
  | .ok s _ => s
  | .stepBudgetExceeded s _ => s

def RunOutcome.trace : RunOutcome → List String
  | .ok _ t => t
  | .stepBudgetExceeded _ t => t

def RunOutcome.isOk : RunOutcome → Bool
  | .ok _ _ => true
  | .stepBudgetExceeded _ _ => false

/-- Modelled from the spec: the loop of §4.3.  `fuel` is the number of
steps still allowed (`max_steps - steps`), so `fuel = 0` is exactly the
`steps >= max_steps` check, performed at the top of every iteration, after
the terminal check and before any node is invoked. -/
def runAux (g : Graph) (maxSteps : Nat) :
    Nat → RTarget → EState → List String → RunOutcome
  | _, RTarget.term, s, tr => RunOutcome.ok s tr.reverse
  | 0, RTarget.node _, s, tr => RunOutcome.stepBudgetExceeded s tr.reverse
  | fuel + 1, RTarget.node id, s, tr =>
    let pr := g.nodes id s
    let s' := applyResult s pr
    runAux g maxSteps fuel (resolveEdge g id s') s' (id :: tr)

/-- Modelled from the spec: `run(graph, initial_state, max_steps)` of §4.3. -/
def run (g : Graph) (s0 : EState) (maxSteps : Nat) : RunOutcome :=
  runAux g maxSteps maxSteps (RTarget.node g.entry) s0 []

/-- Initial state from the caller's initial messages (§6): indices are
assigned in order starting at 0, no routing hint yet. -/
def mkInitialState (msgs : List (Option String × List Char)) : EState :=
  { messages := assignIndices 0 msgs, next := none }

/-- All outgoing edges of a node, in declaration order. -/
def edgesFrom (g : Graph) (n : String) : List GEdge :=
  (g.edges.filter (fun p => p.1 == n)).map (fun p => p.2)

/-! ## Supervisor topology (`graph.py`)

Node functions and graph wiring embedded from `src/enrichment_agent/graph.py`.
The LLM calls (`chat_llm.invoke`, `db_llm.invoke`, the react agents) are the
external decision/action capabilities and appear as oracle parameters. -/

/-- The worker set (`members = ["chat", "coder", "searcher"]`). -/
def members : List String := ["chat", "coder", "searcher"]

/-- `options = members + ["FINISH"]`. -/
def options : List String := members ++ ["FINISH"]

/-- The `chat` node: one LLM answer appended with `name="chatbot"`. -/
def chat (o : EState → List Char) (s : EState) : PartialResult :=
  { newMessages := [(some "chatbot", o s)], nextHint := none }

/-- The `search_node`: the search agent's final answer appended with
`name="searcher"`. -/
def search_node (o : EState → List Char) (s : EState) : PartialResult :=
  { newMessages := [(some "searcher", o s)], nextHint := none }

/-- The `code_node`: the code agent's final answer appended with
`name="coder"`. -/
def code_node (o : EState → List Char) (s : EState) : PartialResult :=
  { newMessages := [(some "coder", o s)], nextHint := none }

/-- Keyword list of the `searcher` fallback rule in `supervisor`
(`graph.py` line 162). -/
def search_keywords : List (List Char) :=
  ["搜索", "查找", "上网", "网上", "搜", "最新", "新闻", "search", "find",
   "latest", "news", "google", "百度"].map String.toList

/-- Keyword list of the `coder` fallback rule in `supervisor`
(`graph.py` line 165). -/
def code_keywords : List (List Char) :=
  ["代码", "编程", "计算", "图表", "数据", "画图", "code", "python", "chart",
   "plot", "calculate", "draw"].map String.toList

/-- The user-turn branch of `supervisor` (`graph.py` lines 134-172): normalize
the oracle's token with `strip().lower()`; when it is not a member, fall back
to the keyword rules over the lower-cased user message, in order, and finally
to `"chat"`. -/
def supervisor_user_route (tok um : List Char) : String :=
  let nx := String.mk (toLowerL (stripL tok))
  if nx ∈ members then nx
  else if search_keywords.any (fun k => containsL k (toLowerL um)) then "searcher"
  else if code_keywords.any (fun k => containsL k (toLowerL um)) then "coder"
  else "chat"

/-- The worker-report branch of `supervisor` (`graph.py` lines 102-133):
normalize with `strip().upper()`; a recognised worker name is lower-cased,
`"FINISH"` and everything else map to `END`. -/
def supervisor_report_route (tok : List Char) : String :=
  let t := String.mk (toUpperL (stripL tok))
  if t = "CHAT" ∨ t = "CODER" ∨ t = "SEARCHER" then String.mk (toLowerL (stripL tok))
  else if t = "FINISH" then endId
  else endId

/-- The `supervisor` node (`graph.py` lines 91-174).  It appends no
messages; it only sets the `next` channel.  `adq` is the
conversation-adequacy oracle of the report branch, `rt` the task-routing
oracle of the user branch. -/
def supervisor (adq rt : EState → List Char) (s : EState) : PartialResult :=
  match s.messages.getLast? with
  | none => { newMessages := [], nextHint := some "chat" }
  | some last =>
    if last.author = some "chatbot" ∨ last.author = some "searcher" ∨
        last.author = some "coder" then
      { newMessages := [], nextHint := some (supervisor_report_route (adq s)) }
    else
      { newMessages := [], nextHint := some (supervisor_user_route (rt s) last.content) }

/-- The conditional-edge decision of the supervisor workflow
(`lambda state: state["next"]`, `graph.py` line 193), interpreted through the
path map `{member: member} | {END: END}`. -/
def supervisor_router (s : EState) : RTarget := strToRT (s.next.getD endId)

/-- Allowed targets of the supervisor's conditional edge: the path map keys
`{chat, coder, searcher, END}` (`graph.py` line 194). -/
def supervisorAllowed : List RTarget :=
  [RTarget.node "chat", RTarget.node "coder", RTarget.node "searcher", RTarget.term]

/-- The compiled supervisor workflow (`graph.py` lines 177-198): workers have
unconditional edges back to the supervisor, the supervisor has the single
conditional edge, and the entry edge `START → supervisor` makes `supervisor`
the entry node.  The source configures no keyword rules and no default on
this edge (an out-of-map value raises in LangGraph); the engine-level
default is the terminal sentinel, which is a member of the allowed set. -/
def graph (adq rt chatO searchO codeO : EState → List Char) : Graph :=
  { nodeIds := ["supervisor", "chat", "coder", "searcher"]
    nodes := fun id =>
      if id = "supervisor" then supervisor adq rt
      else if id = "chat" then chat chatO
      else if id = "coder" then code_node codeO
      else if id = "searcher" then search_node searchO
      else fun _ => { newMessages := [], nextHint := none }
    edges :=
      [("chat", GEdge.uncond "supervisor"),
       ("coder", GEdge.uncond "supervisor"),
       ("searcher", GEdge.uncond "supervisor"),
       ("supervisor", GEdge.cond supervisor_router supervisorAllowed [] RTarget.term)]
    entry := "supervisor" }

/-! ## Network topology (`network_graph.py`) -/

/-- The in-band marker `[ROUTE:network_searcher]`. -/
def route_searcher_marker : List Char := "[ROUTE:network_searcher]".toList

/-- The in-band marker `[ROUTE:network_coder]`. -/
def route_coder_marker : List Char := "[ROUTE:network_coder]".toList

/-- The in-band marker `[ROUTE:network_chat]`. -/
def route_chat_marker : List Char := "[ROUTE:network_chat]".toList

/-- The in-band marker `[ROUTE:FINISH]`. -/
def route_finish_marker : List Char := "[ROUTE:FINISH]".toList

/-- The `network_chat_node` (`network_graph.py` lines 33-71): the action
output is scanned for the markers in the order searcher, coder, FINISH
(first hit wins, default FINISH); the matched marker is removed from the
content with `str.replace`, and the stripped content is appended with
`name="network_chatbot"`. -/
def network_chat_node (act : EState → List Char) (s : EState) : PartialResult :=
  let rc := act s
  let parsed :=
    if containsL route_searcher_marker rc then
      ("network_searcher", replaceL route_searcher_marker [] rc)
    else if containsL route_coder_marker rc then
      ("network_coder", replaceL route_coder_marker [] rc)
    else if containsL route_finish_marker rc then
      ("FINISH", replaceL route_finish_marker [] rc)
    else ("FINISH", rc)
  { newMessages := [(some "network_chatbot", stripL parsed.2)]
    nextHint := some parsed.1 }

/-- The `network_search_node` (`network_graph.py` lines 74-104): the search
result `act s` is appended unchanged with `name="network_searcher"`; a second
decision call `dec s` is scanned for the markers in the order coder, chat,
FINISH (default FINISH). -/
def network_search_node (act dec : EState → List Char) (s : EState) : PartialResult :=
  let d := dec s
  let nextAgent :=
    if containsL route_coder_marker d then "network_coder"
    else if containsL route_chat_marker d then "network_chat"
    else if containsL route_finish_marker d then "FINISH"
    else "FINISH"
  { newMessages := [(some "network_searcher", act s)], nextHint := some nextAgent }

/-- The `network_code_node` (`network_graph.py` lines 107-137): the code
result `act s` is appended unchanged with `name="network_coder"`; the second
decision call `dec s` is scanned for the markers in the order searcher, chat,
FINISH (default FINISH). -/
def network_code_node (act dec : EState → List Char) (s : EState) : PartialResult :=
  let d := dec s
  let nextAgent :=
    if containsL route_searcher_marker d then "network_searcher"
    else if containsL route_chat_marker d then "network_chat"
    else if containsL route_finish_marker d then "FINISH"
    else "FINISH"
  { newMessages := [(some "network_coder", act s)], nextHint := some nextAgent }

/-- The `network_router` (`network_graph.py` lines 140-147):
`state.get("next", "network_chat")`, with `"FINISH"` mapped to `END`,
interpreted through the path maps which also send `END` to `END`. -/
def network_router (s : EState) : RTarget :=
  let nx := s.next.getD "network_chat"
  if nx = "FINISH" then RTarget.term else strToRT nx

/-- Path-map keys of the `network_chat` conditional edge. -/
def networkChatAllowed : List RTarget :=
  [RTarget.node "network_searcher", RTarget.node "network_coder",
   RTarget.node "network_chat", RTarget.term]

/-- Path-map keys of the `network_searcher` conditional edge. -/
def networkSearcherAllowed : List RTarget :=
  [RTarget.node "network_chat", RTarget.node "network_coder",
   RTarget.node "network_searcher", RTarget.term]

/-- Path-map keys of the `network_coder` conditional edge. -/
def networkCoderAllowed : List RTarget :=
  [RTarget.node "network_chat", RTarget.node "network_searcher",
   RTarget.node "network_coder", RTarget.term]

/-- The compiled network workflow (`network_graph.py` lines 151-197):
entry `network_chat`, every node carrying a conditional edge that may reach
any node or `END`.  The source configures no keyword rules and no default
(an out-of-map value raises in LangGraph); the engine-level default is the
terminal sentinel. -/
def network_graph (chatO searchA searchD codeA codeD : EState → List Char) : Graph :=
  { nodeIds := ["network_chat", "network_searcher", "network_coder"]
    nodes := fun id =>
      if id = "network_chat" then network_chat_node chatO
      else if id = "network_searcher" then network_search_node searchA searchD
      else if id = "network_coder" then network_code_node codeA codeD
      else fun _ => { newMessages := [], nextHint := none }
    edges :=
      [("network_chat", GEdge.cond network_router networkChatAllowed [] RTarget.term),
       ("network_searcher", GEdge.cond network_router networkSearcherAllowed [] RTarget.term),
       ("network_coder", GEdge.cond network_router networkCoderAllowed [] RTarget.term)]
    entry := "network_chat" }

/-! ## Hierarchical topology (`hierarchical_graph.py`) -/

/-- The nine third-tier agents.  Each appends a single message whose
`name` equals its node id and sets no routing hint
(`hierarchical_graph.py` lines 36-187). -/
def worker_agent (nm : String) (o : EState → List Char) (s : EState) : PartialResult :=
  { newMessages := [(some nm, o s)], nextHint := none }

def hierarchical_workers : List String :=
  ["researcher", "searcher", "data_collector", "analyst", "calculator",
   "visualizer", "coder", "tester", "deployer"]

/-- Common shape of the three team supervisors (`hierarchical_graph.py`
lines 194-308): when the most recent message is named `top_supervisor`, the
oracle's choice is normalized with `strip().lower()` and validated against
the team member list (defaulting to the team's first member); otherwise the
invocation is treated as a worker report: a completion message is appended
and the hint is set to `"FINISH"`. -/
def team_supervisor_core (supName : String) (teamMembers : List String)
    (dfltChoice : String) (assignPre doneMsg : List Char)
    (o : EState → List Char) (s : EState) : PartialResult :=
  match s.messages.getLast? with
  | some last =>
    if last.author = some "top_supervisor" then
      let choice := String.mk (toLowerL (stripL (o s)))
      let c := if choice ∈ teamMembers then choice else dfltChoice
      { newMessages := [(some supName, assignPre ++ c.toList)], nextHint := some c }
    else
      { newMessages := [(some supName, doneMsg)], nextHint := some "FINISH" }
  | none => { newMessages := [(some supName, doneMsg)], nextHint := some "FINISH" }

/-- `research_team_supervisor` (`hierarchical_graph.py` lines 194-232). -/
def research_team_supervisor (o : EState → List Char) : EState → PartialResult :=
  team_supervisor_core "research_supervisor"
    ["researcher", "searcher", "data_collector"] "researcher"
    "研究团队接收任务，分配给".toList "研究团队任务完成".toList o

/-- `analysis_team_supervisor` (`hierarchical_graph.py` lines 235-270). -/
def analysis_team_supervisor (o : EState → List Char) : EState → PartialResult :=
  team_supervisor_core "analysis_supervisor"
    ["analyst", "calculator", "visualizer"] "analyst"
    "分析团队接收任务，分配给".toList "分析团队任务完成".toList o

/-- `execution_team_supervisor` (`hierarchical_graph.py` lines 273-308). -/
def execution_team_supervisor (o : EState → List Char) : EState → PartialResult :=
  team_supervisor_core "execution_supervisor"
    ["coder", "tester", "deployer"] "coder"
    "执行团队接收任务，分配给".toList "执行团队任务完成".toList o

def valid_teams : List String := ["research_team", "analysis_team", "execution_team"]

/-- Validation of the root oracle's team choice
(`hierarchical_graph.py` lines 335-340): `strip().lower()`, defaulting to
`research_team` for an out-of-set token. -/
def top_level_choice (tok : List Char) : String :=
  let c := String.mk (toLowerL (stripL tok))
  if c ∈ valid_teams then c else "research_team"

/-- `top_level_supervisor` (`hierarchical_graph.py` lines 315-348): reads the
most recent message as the user input, validates the oracle's team choice and
appends the task-assignment message with `name="top_supervisor"`. -/
def top_level_supervisor (o : EState → List Char) (s : EState) : PartialResult :=
  let userInput :=
    match s.messages.getLast? with
    | some m => m.content
    | none => []
  let team := top_level_choice (o s)
  { newMessages := [(some "top_supervisor",
      "顶层监督者分析用户需求：".toList ++ userInput ++ "，决定分配给".toList
        ++ team.toList ++ "团队处理".toList)]
    nextHint := some team }

/-- `team_supervisor_router` (`hierarchical_graph.py` lines 429-438):
`"FINISH"` reports up to `top_supervisor`, any other hint dispatches down. -/
def team_supervisor_router (s : EState) : RTarget :=
  let nx := s.next.getD "FINISH"
  if nx = "FINISH" then RTarget.node "top_supervisor" else RTarget.node nx

/-- The author tags of the three team supervisors. -/
def supervisor_report_names : List (Option String) :=
  [some "research_supervisor", some "analysis_supervisor", some "execution_supervisor"]

/-- True when some message of the log is authored by a team supervisor
(`hierarchical_graph.py` lines 446-447). -/
def hasSupervisorReport (msgs : List Message) : Bool :=
  msgs.any (fun m => supervisor_report_names.contains m.author)

/-- `top_supervisor_final_router` (`hierarchical_graph.py` lines 441-455):
`END` as soon as any team supervisor has reported, otherwise the state's
hint (defaulting to `research_team`), interpreted through the path map which
sends `END` to `END`. -/
def top_supervisor_final_router (s : EState) : RTarget :=
  if hasSupervisorReport s.messages then RTarget.term
  else strToRT (s.next.getD "research_team")

/-- Path-map keys of the `top_supervisor` conditional edge. -/
def topSupervisorAllowed : List RTarget :=
  [RTarget.node "research_team", RTarget.node "analysis_team",
   RTarget.node "execution_team", RTarget.term]

/-- The node mapping of the hierarchical workflow. -/
def hierarchical_nodes (rootO researchO analysisO executionO : EState → List Char)
    (workerO : String → EState → List Char) (id : String) : EState → PartialResult :=
  if id = "top_supervisor" then top_level_supervisor rootO
  else if id = "research_team" then research_team_supervisor researchO
  else if id = "analysis_team" then analysis_team_supervisor analysisO
  else if id = "execution_team" then execution_team_supervisor executionO
  else if id ∈ hierarchical_workers then worker_agent id (workerO id)
  else fun _ => { newMessages := [], nextHint := none }

/-- The compiled hierarchical workflow (`hierarchical_graph.py` lines
370-506): workers report unconditionally to their team supervisor, team
supervisors carry conditional edges over their members plus
`top_supervisor`, and the root carries the conditional edge over the three
teams plus `END`.  Entry is `top_supervisor`. -/
def hierarchical_graph (rootO researchO analysisO executionO : EState → List Char)
    (workerO : String → EState → List Char) : Graph :=
  { nodeIds := "top_supervisor" :: valid_teams ++ hierarchical_workers
    nodes := hierarchical_nodes rootO researchO analysisO executionO workerO
    edges :=
      [("researcher", GEdge.uncond "research_team"),
       ("searcher", GEdge.uncond "research_team"),
       ("data_collector", GEdge.uncond "research_team"),
       ("analyst", GEdge.uncond "analysis_team"),
       ("calculator", GEdge.uncond "analysis_team"),
       ("visualizer", GEdge.uncond "analysis_team"),
       ("coder", GEdge.uncond "execution_team"),
       ("tester", GEdge.uncond "execution_team"),
       ("deployer", GEdge.uncond "execution_team"),
       ("top_supervisor",
        GEdge.cond top_supervisor_final_router topSupervisorAllowed [] RTarget.term),
       ("research_team",
        GEdge.cond team_supervisor_router
          [RTarget.node "researcher", RTarget.node "searcher",
           RTarget.node "data_collector", RTarget.node "top_supervisor"]
          [] (RTarget.node "top_supervisor")),
       ("analysis_team",
        GEdge.cond team_supervisor_router
          [RTarget.node "analyst", RTarget.node "calculator",
           RTarget.node "visualizer", RTarget.node "top_supervisor"]
          [] (RTarget.node "top_supervisor")),
       ("execution_team",
        GEdge.cond team_supervisor_router
          [RTarget.node "coder", RTarget.node "tester",
           RTarget.node "deployer", RTarget.node "top_supervisor"]
          [] (RTarget.node "top_supervisor"))]
    entry := "top_supervisor" }

/-! ## Engine lemmas -/

/-- A graph is closed and non-terminal when its entry is one of its nodes and
every edge resolution from one of its nodes yields another of its nodes,
never the terminal sentinel — the shape produced by a decision capability
that always returns a non-terminal target. -/
def closedNonTerminal (g : Graph) : Prop :=
  g.entry ∈ g.nodeIds ∧
    ∀ id s, id ∈ g.nodeIds →
      ∃ j, resolveEdge g id s = RTarget.node j ∧ j ∈ g.nodeIds

lemma runAux_budget (g : Graph)
    (h : ∀ id s, id ∈ g.nodeIds →
      ∃ j, resolveEdge g id s = RTarget.node j ∧ j ∈ g.nodeIds)
    (maxS : Nat) :
    ∀ fuel id s tr, id ∈ g.nodeIds →
      ∃ s' tr', runAux g maxS fuel (RTarget.node id) s tr
          = RunOutcome.stepBudgetExceeded s' tr' ∧ tr'.length = tr.length + fuel := by
  intro fuel
  induction fuel with
  | zero =>
    intro id s tr _
    exact ⟨s, tr.reverse, rfl, by simp⟩
  | succ n ih =>
    intro id s tr hid
    obtain ⟨j, hj, hjm⟩ := h id (applyResult s (g.nodes id s)) hid
    obtain ⟨s', tr', heq, hlen⟩ := ih j (applyResult s (g.nodes id s)) (id :: tr) hjm
    refine ⟨s', tr', ?_, ?_⟩
    · show runAux g maxS (n + 1) (RTarget.node id) s tr = _
      rw [runAux, hj]
      exact heq
    · simp only [List.length_cons] at hlen
      omega

lemma runAux_trace_le (g : Graph) (maxS : Nat) :
    ∀ fuel cur s tr, ((runAux g maxS fuel cur s tr).trace).length ≤ tr.length + fuel := by
  intro fuel
  induction fuel with
  | zero =>
    intro cur s tr
    cases cur <;> simp [runAux, RunOutcome.trace]
  | succ n ih =>
    intro cur s tr
    cases cur with
    | term => simp [runAux, RunOutcome.trace]
    | node id =>
      have h := ih (resolveEdge g id (applyResult s (g.nodes id s)))
        (applyResult s (g.nodes id s)) (id :: tr)
      rw [runAux]
      simp only [List.length_cons] at h
      omega

/-! ## Claim theorems -/

/-- Claim C1: for every graph and every decision capability that always
returns a non-terminal in-graph target, a run with `max_steps = 3` fails with
`StepBudgetExceeded` after exactly 3 node invocations; and, for every graph
and every budget, no run ever invokes more than `max_steps` nodes, because
the budget is checked at the top of every iteration before a node is
invoked. -/
theorem C1_step_budget_exceeded :
    (∀ (g : Graph) (s0 : EState), closedNonTerminal g →
        ∃ s' tr, run g s0 3 = RunOutcome.stepBudgetExceeded s' tr ∧ tr.length = 3)
    ∧ ∀ (g : Graph) (s0 : EState) (m : Nat), ((run g s0 m).trace).length ≤ m := by
  constructor
  · rintro g s0 ⟨hentry, hres⟩
    obtain ⟨s', tr', heq, hlen⟩ := runAux_budget g hres 3 3 g.entry s0 [] hentry
    exact ⟨s', tr', heq, by simpa using hlen⟩
  · intro g s0 m
    simpa using runAux_trace_le g m m (RTarget.node g.entry) s0 []

/-- A one-node graph whose single edge loops back to itself: its edge
resolution always yields a non-terminal target. -/
def g_loop : Graph :=
  { nodeIds := ["a"]
    nodes := fun _ _ => { newMessages := [], nextHint := none }
    edges := [("a", GEdge.uncond "a")]
    entry := "a" }

theorem C1_step_budget_exceeded_witness :
    ∃ s' tr, run g_loop (mkInitialState []) 3 = RunOutcome.stepBudgetExceeded s' tr
      ∧ tr.length = 3 := by
  refine C1_step_budget_exceeded.1 g_loop (mkInitialState []) ⟨by simp [g_loop], ?_⟩
  intro id s hid
  have hida : id = "a" := by simpa [g_loop] using hid
  subst hida
  exact ⟨"a", rfl, by simp [g_loop]⟩

/-- Stubbed supervisor workflow for the run of claim C3: the routing oracle
answers `"coder"` (consumed by the first, user-turn decision), the adequacy
oracle answers `"FINISH"` (consumed by the second, worker-report decision). -/
def c3_graph : Graph :=
  graph (fun _ => "FINISH".toList) (fun _ => "coder".toList)
    (fun _ => []) (fun _ => []) (fun _ => "done".toList)

def c3_s0 : EState := mkInitialState [(none, "hi".toList)]

/-- Claim C3 (counterexample): the run does visit `supervisor → coder →
supervisor` and then terminates, but the final message sequence has 2
entries, not 3 — the `supervisor` node never appends a message. -/
theorem C3_counterexample :
    (run c3_graph c3_s0 10).trace = ["supervisor", "coder", "supervisor"]
    ∧ (run c3_graph c3_s0 10).isOk = true
    ∧ ¬ (run c3_graph c3_s0 10).state.messages.length = 3 := by decide

/-- Claim C3 (amended): with the decision capability answering `"coder"`
then `"FINISH"`, the run visits exactly `supervisor → coder → supervisor`,
terminates, and the final message sequence has exactly 2 entries in append
order: the initial user message, then the coder report. -/
theorem C3_supervisor_run_amended :
    (run c3_graph c3_s0 10).trace = ["supervisor", "coder", "supervisor"]
    ∧ (run c3_graph c3_s0 10).isOk = true
    ∧ (run c3_graph c3_s0 10).state.messages.map Message.author = [none, some "coder"]
    ∧ (run c3_graph c3_s0 10).state.messages.length = 2 := by decide

/-- Stubbed hierarchical workflow for the run of claim C5: the root oracle
answers `"execution_team"`, the execution-team oracle answers `"tester"`. -/
def c5_graph : Graph :=
  hierarchical_graph (fun _ => "execution_team".toList) (fun _ => [])
    (fun _ => []) (fun _ => "tester".toList) (fun _ _ => "测试完成".toList)

def c5_s0 : EState := mkInitialState [(none, "请测试系统".toList)]

/-- Claim C5: with the root decision stub returning `"execution_team"` and
the team decision stub returning `"tester"`, the run visits exactly
`top_supervisor → execution_team → tester → execution_team →
top_supervisor` and then terminates: the worker reports back
unconditionally to its team node, the team node reports up to the root, and
the root then routes to the terminal sentinel. -/
theorem C5_hierarchical_run :
    (run c5_graph c5_s0 10).trace
      = ["top_supervisor", "execution_team", "tester", "execution_team", "top_supervisor"]
    ∧ (run c5_graph c5_s0 10).isOk = true := by decide

/-- Claim C7: for every choice of oracles, the compiled supervisor workflow
is a star: the hub's single outgoing edge is conditional with allowed
targets exactly the worker set plus the terminal sentinel, and every worker
has exactly one outgoing edge, unconditional, back to the hub. -/
theorem C7_supervisor_star :
    ∀ adq rt chatO searchO codeO : EState → List Char,
      edgesFrom (graph adq rt chatO searchO codeO) "supervisor"
          = [GEdge.cond supervisor_router supervisorAllowed [] RTarget.term]
      ∧ supervisorAllowed
          = [RTarget.node "chat", RTarget.node "coder", RTarget.node "searcher",
             RTarget.term]
      ∧ (∀ t : RTarget, t ∈ supervisorAllowed ↔
            (∃ w ∈ members, t = RTarget.node w) ∨ t = RTarget.term)
      ∧ edgesFrom (graph adq rt chatO searchO codeO) "chat" = [GEdge.uncond "supervisor"]
      ∧ edgesFrom (graph adq rt chatO searchO codeO) "coder" = [GEdge.uncond "supervisor"]
      ∧ edgesFrom (graph adq rt chatO searchO codeO) "searcher"
          = [GEdge.uncond "supervisor"] := by
  intro adq rt chatO searchO codeO
  refine ⟨rfl, rfl, ?_, rfl, rfl, rfl⟩
  intro t
  simp only [supervisorAllowed, members, List.mem_cons, List.mem_singleton,
    List.not_mem_nil, or_false]
  constructor
  · rintro (h | h | h | h)
    · exact Or.inl ⟨"chat", by simp, h⟩
    · exact Or.inl ⟨"coder", by simp, h⟩
    · exact Or.inl ⟨"searcher", by simp, h⟩
    · exact Or.inr h
  · rintro (⟨w, hw, ht⟩ | h)
    · rcases hw with h1 | h1 | h1 <;> subst h1 <;> simp [ht]
    · simp [h]

/-- The supervisor's keyword fallback tier written as the spec's
configuration data: a closed ordered list of (keyword-set, target) pairs. -/
def supervisor_fallback_rules : List (List (List Char) × String) :=
  [(search_keywords, "searcher"), (code_keywords, "coder")]

/-- Claim C2: on every out-of-set decision token (after `strip` and
case-fold) the routers never fail: the supervisor's user-turn branch applies
the ordered keyword rules (first match wins) and falls back to the static
default `"chat"`, always producing a member; the supervisor's worker-report
branch falls back to its static default `END`; the top-level supervisor
falls back to its static default `"research_team"`. -/
theorem C2_routing_fallback :
    ∀ tok um : List Char,
      (String.mk (toLowerL (stripL tok)) ∉ members →
          supervisor_user_route tok um
            = (applyRules supervisor_fallback_rules um).getD "chat"
          ∧ supervisor_user_route tok um ∈ members)
      ∧ (String.mk (toUpperL (stripL tok))
            ∉ (["CHAT", "CODER", "SEARCHER", "FINISH"] : List String) →
          supervisor_report_route tok = endId)
      ∧ (String.mk (toLowerL (stripL tok)) ∉ valid_teams →
          top_level_choice tok = "research_team" ∧ "research_team" ∈ valid_teams) := by
  intro tok um
  refine ⟨?_, ?_, ?_⟩
  · intro h
    constructor
    · simp only [supervisor_user_route, supervisor_fallback_rules, applyRules,
        if_neg h]
      split_ifs <;> simp
    · simp only [supervisor_user_route, if_neg h]
      split_ifs <;> simp [members]
  · intro h
    simp only [List.mem_cons, List.not_mem_nil, or_false, not_or] at h
    obtain ⟨h1, h2, h3, h4⟩ := h
    simp [supervisor_report_route, h1, h2, h3, h4]
  · intro h
    exact ⟨by simp [top_level_choice, if_neg h], by simp [valid_teams]⟩

theorem C2_routing_fallback_witness :
    String.mk (toLowerL (stripL "Bogus!".toList)) ∉ members
    ∧ supervisor_user_route "Bogus!".toList "please draw a chart".toList = "coder"
    ∧ supervisor_user_route "Bogus!".toList "please draw a chart".toList ∈ members
    ∧ supervisor_report_route "Bogus!".toList = endId
    ∧ top_level_choice "Bogus!".toList = "research_team" := by
  have h := C2_routing_fallback "Bogus!".toList "please draw a chart".toList
  obtain ⟨h1, h2⟩ := h.1 (by decide)
  refine ⟨by decide, ?_, h2, h.2.1 (by decide), (h.2.2 (by decide)).1⟩
  rw [h1]
  decide

/-- Action output of the counterexample of claim C4 that carries both the
searcher and the coder marker. -/
def c4_both : List Char := "x [ROUTE:network_searcher] y [ROUTE:network_coder]".toList

/-- Action output of the counterexample of claim C4 whose single coder
marker is nested inside fragments that recombine into a fresh marker after
removal. -/
def c4_nested : List Char := "[ROUTE:[ROUTE:network_coder]network_coder]".toList

def c4_s0 : EState := mkInitialState [(none, "hi".toList)]

/-- Claim C4 (counterexample): the claim fails as stated.  When the output
also embeds the searcher marker, the searcher marker wins and the next node
is not `network_coder` (and the coder marker is not even stripped); and when
the output nests marker fragments, the single left-to-right `replace` pass
leaves a coder marker in the stored content even though the next node is
`network_coder`. -/
theorem C4_counterexample :
    ((network_chat_node (fun _ => c4_both) c4_s0).nextHint ≠ some "network_coder"
      ∧ (network_chat_node (fun _ => c4_both) c4_s0).newMessages.any
          (fun p => containsL route_coder_marker p.2) = true)
    ∧ ((network_chat_node (fun _ => c4_nested) c4_s0).nextHint = some "network_coder"
      ∧ (network_chat_node (fun _ => c4_nested) c4_s0).newMessages.any
          (fun p => containsL route_coder_marker p.2) = true) := by decide

/-- Claim C4 (amended): whenever `network_chat`'s action output embeds the
coder marker and does not embed the searcher marker, the stored message
content is the output with every left-to-right non-overlapping occurrence of
the coder marker replaced by the empty string and then whitespace-trimmed
(which can itself still spell a marker when the output nests marker
fragments), and the next node executed is `network_coder`. -/
theorem C4_network_marker_amended :
    ∀ (act searchA searchD codeA codeD : EState → List Char) (s : EState),
      containsL route_coder_marker (act s) = true →
      containsL route_searcher_marker (act s) = false →
      (network_chat_node act s).nextHint = some "network_coder"
      ∧ (network_chat_node act s).newMessages
          = [(some "network_chatbot", stripL (replaceL route_coder_marker [] (act s)))]
      ∧ resolveEdge (network_graph act searchA searchD codeA codeD) "network_chat"
          (applyResult s (network_chat_node act s)) = RTarget.node "network_coder" := by
  intro act searchA searchD codeA codeD s h1 h2
  have hnode : network_chat_node act s
      = { newMessages :=
            [(some "network_chatbot", stripL (replaceL route_coder_marker [] (act s)))]
          nextHint := some "network_coder" } := by
    simp [network_chat_node, h1, h2]
  have hnext : (applyResult s (network_chat_node act s)).next = some "network_coder" := by
    simp [applyResult, hnode]
  refine ⟨by simp [hnode], by simp [hnode], ?_⟩
  have hr : network_router (applyResult s (network_chat_node act s))
      = RTarget.node "network_coder" := by
    simp [network_router, hnext, strToRT, endId]
  show (if network_router (applyResult s (network_chat_node act s)) ∈ networkChatAllowed
        then network_router (applyResult s (network_chat_node act s))
        else fallbackTarget [] RTarget.term (applyResult s (network_chat_node act s)))
      = RTarget.node "network_coder"
  rw [hr]
  simp [networkChatAllowed]

theorem C4_network_marker_amended_witness :
    containsL route_coder_marker "ok [ROUTE:network_coder]".toList = true
    ∧ containsL route_searcher_marker "ok [ROUTE:network_coder]".toList = false
    ∧ (network_chat_node (fun _ => "ok [ROUTE:network_coder]".toList) c4_s0).nextHint
        = some "network_coder"
    ∧ (network_chat_node (fun _ => "ok [ROUTE:network_coder]".toList) c4_s0).newMessages
        = [(some "network_chatbot", "ok".toList)]
    ∧ resolveEdge
        (network_graph (fun _ => "ok [ROUTE:network_coder]".toList)
          (fun _ => []) (fun _ => []) (fun _ => []) (fun _ => []))
        "network_chat"
        (applyResult c4_s0
          (network_chat_node (fun _ => "ok [ROUTE:network_coder]".toList) c4_s0))
        = RTarget.node "network_coder" := by
  have h := C4_network_marker_amended (fun _ => "ok [ROUTE:network_coder]".toList)
    (fun _ => []) (fun _ => []) (fun _ => []) (fun _ => []) c4_s0
    (by decide) (by decide)
  refine ⟨by decide, by decide, h.1, ?_, h.2.2⟩
  rw [h.2.1]
  decide

/-- Claim C6: a hierarchical team node invoked with an empty message history,
or with a most recent message that carries no author tag, takes the
worker-report branch: it appends its completion message, dispatches to no
worker, and its hint routes up to the root. -/
theorem C6_team_report_default :
    ∀ (o : EState → List Char) (s : EState),
      (s.messages.getLast? = none
        ∨ ∃ m, s.messages.getLast? = some m ∧ m.author = none) →
      ((research_team_supervisor o s).nextHint = some "FINISH"
        ∧ (research_team_supervisor o s).newMessages
            = [(some "research_supervisor", "研究团队任务完成".toList)]
        ∧ team_supervisor_router (applyResult s (research_team_supervisor o s))
            = RTarget.node "top_supervisor")
      ∧ ((analysis_team_supervisor o s).nextHint = some "FINISH"
        ∧ (analysis_team_supervisor o s).newMessages
            = [(some "analysis_supervisor", "分析团队任务完成".toList)]
        ∧ team_supervisor_router (applyResult s (analysis_team_supervisor o s))
            = RTarget.node "top_supervisor")
      ∧ ((execution_team_supervisor o s).nextHint = some "FINISH"
        ∧ (execution_team_supervisor o s).newMessages
            = [(some "execution_supervisor", "执行团队任务完成".toList)]
        ∧ team_supervisor_router (applyResult s (execution_team_supervisor o s))
            = RTarget.node "top_supervisor") := by
  intro o s h
  have key : ∀ supName teamMembers dfltChoice assignPre doneMsg,
      team_supervisor_core supName teamMembers dfltChoice assignPre doneMsg o s
        = { newMessages := [(some supName, doneMsg)], nextHint := some "FINISH" } := by
    intro supName teamMembers dfltChoice assignPre doneMsg
    rcases h with h | ⟨m, hm, ha⟩
    · simp [team_supervisor_core, h]
    · simp [team_supervisor_core, hm, ha]
  refine ⟨⟨?_, ?_, ?_⟩, ⟨?_, ?_, ?_⟩, ⟨?_, ?_, ?_⟩⟩ <;>
    simp [research_team_supervisor, analysis_team_supervisor,
      execution_team_supervisor, key, team_supervisor_router, applyResult]

theorem C6_team_report_default_witness :
    (research_team_supervisor (fun _ => []) (mkInitialState [])).nextHint = some "FINISH"
    ∧ (analysis_team_supervisor (fun _ => []) (mkInitialState [])).nextHint = some "FINISH"
    ∧ (execution_team_supervisor (fun _ => []) (mkInitialState [])).nextHint = some "FINISH"
    ∧ team_supervisor_router
        (applyResult (mkInitialState [])
          (execution_team_supervisor (fun _ => []) (mkInitialState [])))
        = RTarget.node "top_supervisor" := by
  have h := C6_team_report_default (fun _ => []) (mkInitialState []) (Or.inl rfl)
  exact ⟨h.1.1, h.2.1.1, h.2.2.1, h.2.2.2.2⟩

/-- The four legal next-hint values of the network topology. -/
def network_targets : List String :=
  ["network_chat", "network_searcher", "network_coder", "FINISH"]

/-- Claim C9: every network node executor's hint is one of
`network_chat`, `network_searcher`, `network_coder`, `FINISH`; and a
decision output containing none of the recognised markers makes each node
default to `FINISH`. -/
theorem C9_network_hint_closed :
    ∀ (act dec : EState → List Char) (s : EState),
      ((network_chat_node act s).nextHint.getD "FINISH" ∈ network_targets
        ∧ (network_search_node act dec s).nextHint.getD "FINISH" ∈ network_targets
        ∧ (network_code_node act dec s).nextHint.getD "FINISH" ∈ network_targets)
      ∧ (containsL route_searcher_marker (act s) = false →
          containsL route_coder_marker (act s) = false →
          containsL route_finish_marker (act s) = false →
          (network_chat_node act s).nextHint = some "FINISH")
      ∧ (containsL route_coder_marker (dec s) = false →
          containsL route_chat_marker (dec s) = false →
          containsL route_finish_marker (dec s) = false →
          (network_search_node act dec s).nextHint = some "FINISH")
      ∧ (containsL route_searcher_marker (dec s) = false →
          containsL route_chat_marker (dec s) = false →
          containsL route_finish_marker (dec s) = false →
          (network_code_node act dec s).nextHint = some "FINISH") := by
  intro act dec s
  refine ⟨⟨?_, ?_, ?_⟩, ?_, ?_, ?_⟩
  · simp only [network_chat_node]
    split_ifs <;> simp [network_targets]
  · simp only [network_search_node]
    split_ifs <;> simp [network_targets]
  · simp only [network_code_node]
    split_ifs <;> simp [network_targets]
  · intro h1 h2 h3
    simp [network_chat_node, h1, h2, h3]
  · intro h1 h2 h3
    simp [network_search_node, h1, h2, h3]
  · intro h1 h2 h3
    simp [network_code_node, h1, h2, h3]

theorem C9_network_hint_closed_witness :
    ((network_chat_node (fun _ => "hello".toList)
        (mkInitialState [])).nextHint.getD "FINISH" ∈ network_targets)
    ∧ (network_chat_node (fun _ => "hello".toList) (mkInitialState [])).nextHint
        = some "FINISH"
    ∧ (network_search_node (fun _ => "found".toList) (fun _ => "hello".toList)
        (mkInitialState [])).nextHint = some "FINISH"
    ∧ (network_code_node (fun _ => "ran".toList) (fun _ => "hello".toList)
        (mkInitialState [])).nextHint = some "FINISH" := by
  have h := C9_network_hint_closed (fun _ => "hello".toList)
    (fun _ => "hello".toList) (mkInitialState [])
  have h2 := C9_network_hint_closed (fun _ => "found".toList)
    (fun _ => "hello".toList) (mkInitialState [])
  have h3 := C9_network_hint_closed (fun _ => "ran".toList)
    (fun _ => "hello".toList) (mkInitialState [])
  exact ⟨h.1.1, h.2.1 (by decide) (by decide) (by decide),
    h2.2.2.1 (by decide) (by decide) (by decide),
    h3.2.2.2 (by decide) (by decide) (by decide)⟩

/-! ## Message-log monotonicity (claim C8) -/

/-- The sequence indices of a log are strictly increasing in order. -/
def seqStrictMono (msgs : List Message) : Prop :=
  (msgs.map Message.seqIndex).Pairwise (· < ·)

lemma le_prevMaxIndex : ∀ (msgs : List Message), ∀ m ∈ msgs,
    m.seqIndex ≤ prevMaxIndex msgs := by
  intro msgs
  induction msgs with
  | nil => simp
  | cons a l ih =>
    intro m hm
    rcases List.mem_cons.mp hm with hm | hm
    · subst hm
      exact le_max_left _ _
    · exact le_trans (ih m hm) (le_max_right _ _)

lemma assignIndices_index_ge :
    ∀ (l : List (Option String × List Char)) (n : Nat), ∀ m ∈ assignIndices n l,
      n ≤ m.seqIndex := by
  intro l
  induction l with
  | nil => simp [assignIndices]
  | cons p rest ih =>
    intro n m hm
    rcases List.mem_cons.mp hm with hm | hm
    · subst hm
      exact le_refl _
    · exact le_trans (Nat.le_succ n) (ih (n + 1) m hm)

lemma assignIndices_map_index :
    ∀ (l : List (Option String × List Char)) (n : Nat),
      (assignIndices n l).map Message.seqIndex = List.range' n l.length := by
  intro l
  induction l with
  | nil => simp [assignIndices]
  | cons p rest ih =>
    intro n
    simp [assignIndices, List.range', ih]

lemma assignIndices_pairwise :
    ∀ (l : List (Option String × List Char)) (n : Nat),
      ((assignIndices n l).map Message.seqIndex).Pairwise (· < ·) := by
  intro l
  induction l with
  | nil => simp [assignIndices]
  | cons p rest ih =>
    intro n
    rw [assignIndices, List.map_cons, List.pairwise_cons]
    refine ⟨?_, ih (n + 1)⟩
    intro b hb
    obtain ⟨m, hm, rfl⟩ := List.mem_map.mp hb
    exact lt_of_lt_of_le (Nat.lt_succ_self n) (assignIndices_index_ge rest (n + 1) m hm)

lemma applyResult_extends (s : EState) (pr : PartialResult) :
    s.messages <+: (applyResult s pr).messages :=
  List.prefix_append _ _

lemma applyResult_mono (s : EState) (pr : PartialResult)
    (h : seqStrictMono s.messages) : seqStrictMono (applyResult s pr).messages := by
  unfold seqStrictMono applyResult
  rw [List.map_append, List.pairwise_append]
  refine ⟨h, assignIndices_pairwise _ _, ?_⟩
  intro a ha b hb
  obtain ⟨ma, hma, rfl⟩ := List.mem_map.mp ha
  obtain ⟨mb, hmb, rfl⟩ := List.mem_map.mp hb
  have h1 := le_prevMaxIndex s.messages ma hma
  have h2 := assignIndices_index_ge _ _ mb hmb
  omega

lemma runAux_log_mono (g : Graph) (maxS : Nat) :
    ∀ fuel cur s tr, seqStrictMono s.messages →
      s.messages <+: ((runAux g maxS fuel cur s tr).state).messages
      ∧ seqStrictMono ((runAux g maxS fuel cur s tr).state).messages := by
  intro fuel
  induction fuel with
  | zero =>
    intro cur s tr h
    cases cur <;> exact ⟨List.prefix_rfl, h⟩
  | succ n ih =>
    intro cur s tr h
    cases cur with
    | term => exact ⟨List.prefix_rfl, h⟩
    | node id =>
      rw [runAux]
      have h' := applyResult_mono s (g.nodes id s) h
      obtain ⟨p1, p2⟩ := ih (resolveEdge g id (applyResult s (g.nodes id s)))
        (applyResult s (g.nodes id s)) (id :: tr) h'
      exact ⟨(applyResult_extends s (g.nodes id s)).trans p1, p2⟩

/-- Claim C8: the engine's append is monotone: the old log is always a
prefix of the new one (nothing is reordered or dropped), the new entries get
the consecutive indices `previous max + 1, previous max + 2, …` in order,
strict index monotonicity is preserved by every append, and hence across a
whole run from any initial state with a strictly increasing log, regardless
of which nodes produce the messages. -/
theorem C8_append_monotonic :
    (∀ (s : EState) (pr : PartialResult), s.messages <+: (applyResult s pr).messages)
    ∧ (∀ (s : EState) (pr : PartialResult),
        (applyResult s pr).messages.map Message.seqIndex
          = s.messages.map Message.seqIndex
            ++ List.range' (prevMaxIndex s.messages + 1) pr.newMessages.length)
    ∧ (∀ (s : EState) (pr : PartialResult),
        seqStrictMono s.messages → seqStrictMono (applyResult s pr).messages)
    ∧ (∀ (g : Graph) (s0 : EState) (m : Nat), seqStrictMono s0.messages →
        s0.messages <+: ((run g s0 m).state).messages
        ∧ seqStrictMono ((run g s0 m).state).messages) := by
  refine ⟨applyResult_extends, ?_, applyResult_mono, ?_⟩
  · intro s pr
    simp [applyResult, assignIndices_map_index]
  · intro g s0 m h
    exact runAux_log_mono g m m (RTarget.node g.entry) s0 [] h

def c8_s : EState := mkInitialState [(none, "a".toList), (none, "b".toList)]

def c8_pr : PartialResult :=
  { newMessages := [(some "x", "c".toList)], nextHint := none }

theorem C8_append_monotonic_witness :
    seqStrictMono c8_s.messages
    ∧ seqStrictMono (applyResult c8_s c8_pr).messages
    ∧ c8_s.messages <+: ((run g_loop c8_s 3).state).messages
    ∧ seqStrictMono ((run g_loop c8_s 3).state).messages := by
  have h1 : seqStrictMono c8_s.messages := by
    unfold seqStrictMono
    decide
  have h2 := C8_append_monotonic.2.2.1 c8_s c8_pr h1
  have h3 := C8_append_monotonic.2.2.2 g_loop c8_s 3 h1
  exact ⟨h1, h2, h3.1, h3.2⟩

/-! ## Root termination (claim C10) -/

lemma team_core_hint_ne (supName : String) (tm : List String) (dflt : String)
    (pre done : List Char) (o : EState → List Char) (s : EState)
    (h1 : endId ∉ tm) (h2 : dflt ≠ endId) :
    (team_supervisor_core supName tm dflt pre done o s).nextHint ≠ some endId := by
  unfold team_supervisor_core
  cases hg : s.messages.getLast? with
  | none => simp [endId]
  | some last =>
    dsimp only
    by_cases ha : last.author = some "top_supervisor"
    · rw [if_pos ha]
      by_cases hm : String.mk (toLowerL (stripL (o s))) ∈ tm
      · simp only [if_pos hm, ne_eq, Option.some.injEq]
        intro hEq
        exact h1 (hEq ▸ hm)
      · simp only [if_neg hm, ne_eq, Option.some.injEq]
        exact h2
    · rw [if_neg ha]
      simp [endId]

/-- Claim C10: the root's routing function returns the terminal sentinel
exactly when the message history contains a team supervisor's report
(provided the routing channel does not hold the internal `END` id, which no
hierarchical node ever emits); and once a report is in the history, the
routing step right after the next root invocation is terminal: the root
never dispatches a second team. -/
theorem C10_root_terminal_iff :
    (∀ s : EState, s.next ≠ some endId →
        (top_supervisor_final_router s = RTarget.term
          ↔ hasSupervisorReport s.messages = true))
    ∧ (∀ (o : EState → List Char) (s : EState),
        (top_level_supervisor o s).nextHint ≠ some endId
        ∧ (research_team_supervisor o s).nextHint ≠ some endId
        ∧ (analysis_team_supervisor o s).nextHint ≠ some endId
        ∧ (execution_team_supervisor o s).nextHint ≠ some endId)
    ∧ (∀ (o : EState → List Char) (s : EState),
        hasSupervisorReport s.messages = true →
        top_supervisor_final_router (applyResult s (top_level_supervisor o s))
          = RTarget.term) := by
  refine ⟨?_, ?_, ?_⟩
  · intro s hne
    unfold top_supervisor_final_router
    split_ifs with hrep
    · simp [hrep]
    · constructor
      · intro hterm
        exfalso
        unfold strToRT at hterm
        split_ifs at hterm with he
        cases hnx : s.next with
        | none =>
          rw [hnx] at he
          simp [endId] at he
        | some v =>
          rw [hnx] at he
          simp only [Option.getD_some] at he
          exact hne (by rw [hnx, he])
      · intro hx
        exact absurd hx hrep
  · intro o s
    refine ⟨?_, ?_, ?_, ?_⟩
    · unfold top_level_supervisor top_level_choice
      by_cases hm : String.mk (toLowerL (stripL (o s))) ∈ valid_teams
      · simp only [if_pos hm, ne_eq, Option.some.injEq]
        intro hEq
        rw [hEq] at hm
        revert hm
        decide
      · simp only [if_neg hm, ne_eq, Option.some.injEq]
        decide
    · exact team_core_hint_ne _ _ _ _ _ o s (by decide) (by decide)
    · exact team_core_hint_ne _ _ _ _ _ o s (by decide) (by decide)
    · exact team_core_hint_ne _ _ _ _ _ o s (by decide) (by decide)
  · intro o s h
    unfold top_supervisor_final_router
    have : hasSupervisorReport (applyResult s (top_level_supervisor o s)).messages
        = true := by
      unfold hasSupervisorReport at h
      unfold hasSupervisorReport applyResult
      rw [List.any_append, h, Bool.true_or]
    simp [this]

def c10_s : EState :=
  { messages := [⟨some "research_supervisor", "done".toList, 0⟩]
    next := some "research_team" }

theorem C10_root_terminal_iff_witness :
    c10_s.next ≠ some endId
    ∧ hasSupervisorReport c10_s.messages = true
    ∧ top_supervisor_final_router c10_s = RTarget.term
    ∧ (top_level_supervisor (fun _ => []) c10_s).nextHint ≠ some endId
    ∧ top_supervisor_final_router
        (applyResult c10_s (top_level_supervisor (fun _ => []) c10_s))
        = RTarget.term := by
  refine ⟨by decide, by decide, ?_, ?_, ?_⟩
  · exact ((C10_root_terminal_iff.1 c10_s (by decide)).mpr (by decide))
  · exact (C10_root_terminal_iff.2.1 (fun _ => []) c10_s).1
  · exact C10_root_terminal_iff.2.2 (fun _ => []) c10_s (by decide)

end MultiAgents
